import Mathlib

/-!
Verification of the freed email-event pipeline (src/app) against its
natural-language specification.

The development shallowly embeds the Python modules `app/utils.py`,
`app/store.py`, `app/config.py`, `app/parser_llm.py` and
`app/postprocess.py`:

* Python `str` values become Lean `String`; values that may be `None`
  become the small type `PyObj` (`ostr s` / `onone`).
* `float` confidence scores and wall-clock datetimes become exact
  rationals (`Rat`); a datetime is measured in days, so
  `timedelta(hours=24)` is `1` and `timedelta(days=d)` is `d`.
  None of the verified properties depends on binary floating-point
  rounding: all numeric branches compared here are far from the
  rounding error of IEEE doubles.
* Python `dict` (insertion ordered) becomes an association list with
  first-match lookup and in-place overwrite.
* Library calls from the Python standard library that the repository
  uses (`unicodedata.normalize`/`str.casefold`, `hashlib`, `difflib`,
  `datetime.strptime`, `re`) are given executable Lean models whose
  modelled behavior is exactly the behavior the theorems rely on; each
  model documents what it captures.
-/

/-- Model of an arbitrary Python value in positions typed `Any` in the
source: either a `str` or a non-string value (`None` and friends), which
every normalization helper in `app/utils.py` maps to the empty string. -/
inductive PyObj where
  | ostr (s : String)
  | onone
deriving DecidableEq, Repr

/-!
Exact rational arithmetic. The library operations `Rat.add`, `Rat.mul`,
`Rat.sub` and `Rat.div` are marked irreducible, which blocks concrete
kernel evaluation, so the embedding computes with the following
`mkRat`-based operations; `qmul_eq`, `qadd_eq` and `qsub_eq` below prove
them equal to the library operations, so abstract reasoning can use the
ordered-field structure of `ℚ` while witnesses evaluate by `decide`. -/

/-- Rational multiplication via `mkRat` (equals `a * b`). -/
def qmul (a b : ℚ) : ℚ := mkRat (a.num * b.num) (a.den * b.den)

/-- Rational addition via `mkRat` (equals `a + b`). -/
def qadd (a b : ℚ) : ℚ := mkRat (a.num * b.den + b.num * a.den) (a.den * b.den)

/-- Rational subtraction via `mkRat` (equals `a - b`). -/
def qsub (a b : ℚ) : ℚ := mkRat (a.num * b.den - b.num * a.den) (a.den * b.den)

/-- Model of the character class matched by Python's `\s` (and stripped by
`str.strip()`): ASCII whitespace, the C1 separators, and the Unicode
space separators. -/
def isPySpace (c : Char) : Bool :=
  c == ' ' || c == '\t' || c == '\n' || c == '\r' || c == '\x0b' || c == '\x0c' ||
  c == '\x1c' || c == '\x1d' || c == '\x1e' || c == '\x1f' || c == '\x85' ||
  c == ' ' || c == ' ' ||
  (' ' ≤ c && c ≤ ' ') ||
  c == ' ' || c == ' ' || c == ' ' || c == ' ' || c == '　'

/-- Model of `unicodedata.normalize("NFKC", s).casefold()` restricted to a
concrete character repertoire, as a per-character expansion: uppercase
ASCII and common accented capitals fold to their lowercase forms, the
German sharp s expands to "ss", and the no-break space is the NFKC image
of a plain space. Characters outside the table (in particular all
lowercase output characters) are fixed points, which is exactly the
stability property of NFKC-casefolded text that idempotence of
`norm_text` rests on. -/
def foldCharTable : List (Char × List Char) :=
  [ ('A', ['a']), ('B', ['b']), ('C', ['c']), ('D', ['d']), ('E', ['e']),
    ('F', ['f']), ('G', ['g']), ('H', ['h']), ('I', ['i']), ('J', ['j']),
    ('K', ['k']), ('L', ['l']), ('M', ['m']), ('N', ['n']), ('O', ['o']),
    ('P', ['p']), ('Q', ['q']), ('R', ['r']), ('S', ['s']), ('T', ['t']),
    ('U', ['u']), ('V', ['v']), ('W', ['w']), ('X', ['x']), ('Y', ['y']),
    ('Z', ['z']),
    ('À', ['à']), ('Á', ['á']), ('Â', ['â']), ('Ã', ['ã']), ('Ä', ['ä']),
    ('Å', ['å']), ('Ç', ['ç']), ('È', ['è']), ('É', ['é']), ('Ê', ['ê']),
    ('Ë', ['ë']), ('Ì', ['ì']), ('Í', ['í']), ('Î', ['î']), ('Ï', ['ï']),
    ('Ñ', ['ñ']), ('Ò', ['ò']), ('Ó', ['ó']), ('Ô', ['ô']), ('Õ', ['õ']),
    ('Ö', ['ö']), ('Ù', ['ù']), ('Ú', ['ú']), ('Û', ['û']), ('Ü', ['ü']),
    ('ß', ['s', 's']),
    (' ', [' ']) ]

/-- Per-character NFKC + casefold expansion (identity off the table). -/
def foldChar (c : Char) : List Char :=
  match foldCharTable.lookup c with
  | some l => l
  | none => [c]

/-- NFKC + casefold of a whole character list. -/
def foldStr : List Char → List Char
  | [] => []
  | c :: cs => foldChar c ++ foldStr cs

/-- Model of `re.sub(r"\s+", " ", s)`: every maximal run of whitespace
becomes a single plain space. The boolean argument records whether the
previous character belonged to a whitespace run. -/
def collapseWs : Bool → List Char → List Char
  | _, [] => []
  | prev, c :: cs =>
    if isPySpace c then
      if prev then collapseWs true cs else ' ' :: collapseWs true cs
    else c :: collapseWs false cs

/-- Drop trailing whitespace (the right half of `str.strip()`). -/
def stripEnd : List Char → List Char
  | [] => []
  | c :: cs =>
    let r := stripEnd cs
    if r.isEmpty && isPySpace c then [] else c :: r

/-- Model of `str.strip()` with no arguments. -/
def stripWs (l : List Char) : List Char :=
  stripEnd (l.dropWhile (fun c => isPySpace c))

/-- Embedding of `utils.norm_text`: non-strings normalize to `""`; a
string is NFKC-normalized and casefolded, whitespace runs are collapsed
to single spaces, and the ends are stripped. -/
def norm_text (x : PyObj) : String :=
  match x with
  | .ostr s => ⟨stripWs (collapseWs false (foldStr s.data))⟩
  | .onone => ""

/-- Convenience: `norm_text` on a value that is known to be a string. -/
def normStr (s : String) : String := norm_text (.ostr s)

/-- Embedding of `utils.safe_lower` (delegates to `norm_text`). -/
def safe_lower (x : PyObj) : String := norm_text x

/-- Embedding of `utils.normalize_food_name` (delegates to `norm_text`). -/
def normalize_food_name (x : PyObj) : String := norm_text x

example : normStr "  CAFÉ   du\t monde " = "café du monde" := by decide
example : normStr "PIZZA " = "pizza" := by decide

/-- Model of Python `str.split(sep)` for a one-character separator `sep`
(the only form the repository uses, always with `"|"`). -/
def splitOnChar (sep : Char) : List Char → List (List Char)
  | [] => [[]]
  | c :: cs =>
    let r := splitOnChar sep cs
    if c == sep then
      [] :: r
    else
      match r with
      | [] => [[c]]
      | p :: ps => (c :: p) :: ps

/-- Python `a in b` on strings: `needle` occurs contiguously in `hay`. -/
def substrB (needle hay : List Char) : Bool :=
  needle.isPrefixOf hay ||
    match hay with
    | [] => false
    | _ :: t => substrB needle t

example : splitOnChar '|' "a|bc|".data = ["a".data, "bc".data, "".data] := by decide
example : substrB "ail".data "mailing list".data = true := by decide
example : substrB "x".data "mailing".data = false := by decide

/-- Hexadecimal digit characters, as used by `hexdigest()`. -/
def hexChar (n : Nat) : Char :=
  "0123456789abcdef".data.getD n 'f'

/-- Render `n` as exactly `w` lowercase hexadecimal characters
(most significant first). -/
def hexFixed (w n : Nat) : List Char :=
  (List.range w).map (fun i => hexChar (n / 16 ^ (w - 1 - i) % 16))

/-- UTF-8 encoding of a character as byte values. -/
def utf8Bytes (c : Char) : List Nat :=
  let n := c.toNat
  if n < 0x80 then [n]
  else if n < 0x800 then
    [0xC0 + n / 64, 0x80 + n % 64]
  else if n < 0x10000 then
    [0xE0 + n / 4096, 0x80 + n / 64 % 64, 0x80 + n % 64]
  else
    [0xF0 + n / 262144, 0x80 + n / 4096 % 64, 0x80 + n / 64 % 64, 0x80 + n % 64]

/-- UTF-8 encoding of a string (`s.encode("utf-8")`). -/
def strBytes (s : String) : List Nat :=
  s.data.foldr (fun c acc => utf8Bytes c ++ acc) []

/-- 64-bit FNV-1a accumulation over a byte list, from a given basis. -/
def fnv64 (basis : Nat) (bytes : List Nat) : Nat :=
  bytes.foldl (fun h b => ((h ^^^ b) * 1099511628211) % 2 ^ 64) basis

/-- Model of `hashlib.md5(s.encode("utf-8")).hexdigest()`: a deterministic
32-character lowercase hexadecimal digest of the UTF-8 bytes (two 64-bit
FNV-1a passes with distinct bases). The verification relies only on
properties the model shares with real MD5: the digest is a pure function
of the input, its characters are hexadecimal (so a digest never contains
the `"|"` separator of the pre-hash string), and the concrete digests
compared in the theorems below are pairwise distinct (checked by
evaluation). -/
def md5_hexdigest (s : String) : String :=
  let bs := strBytes s
  ⟨hexFixed 16 (fnv64 14695981039346656037 bs) ++
    hexFixed 16 (fnv64 12638153115695167455 bs)⟩

/-- Model of `hashlib.sha256(s.encode("utf-8")).hexdigest()[:16]` from
`EventStore.generate_cache_key`: a deterministic 16-character lowercase
hexadecimal digest of the UTF-8 bytes. No verified claim depends on its
value beyond determinism. -/
def sha256_hexdigest16 (s : String) : String :=
  ⟨hexFixed 16 (fnv64 17241709254077376921 (strBytes s))⟩

/-- Python `str(x or "")` for a string-or-None value: `None` and the empty
string are falsy and give `""`; any other string is returned as-is. -/
def pyStrOrEmpty (x : PyObj) : String :=
  match x with
  | .ostr s => s
  | .onone => ""

/-- Embedding of `utils.event_dedupe_key`: the MD5 hex digest of the
pipe-joined normalized components, with the date taken as-is. -/
def event_dedupe_key (title date_start time_start location : PyObj) : String :=
  md5_hexdigest (String.intercalate "|"
    [norm_text title, pyStrOrEmpty date_start, norm_text time_start, norm_text location])

/-- Proleptic Gregorian leap-year test. -/
def isLeapYear (y : Nat) : Bool :=
  (y % 4 == 0 && y % 100 != 0) || y % 400 == 0

/-- Length of month `m` (1-12) in year `y`. -/
def daysInMonth (y m : Nat) : Nat :=
  if m == 2 then (if isLeapYear y then 29 else 28)
  else if m == 4 || m == 6 || m == 9 || m == 11 then 30
  else 31

/-- Days in the months strictly before month `m` of year `y`. -/
def daysBeforeMonth (y m : Nat) : Nat :=
  (List.range (m - 1)).foldl (fun acc i => acc + daysInMonth y (i + 1)) 0

/-- Proleptic Gregorian ordinal of a date, as in Python
`date(y, m, d).toordinal()` (so `date(1, 1, 1)` is day 1). -/
def dateOrdinal (y m d : Nat) : Nat :=
  365 * (y - 1) + (y - 1) / 4 - (y - 1) / 100 + (y - 1) / 400 +
    daysBeforeMonth y m + d

/-- Read a run of decimal digits from the front of a character list. -/
def takeDigits : List Char → (List Char × List Char)
  | [] => ([], [])
  | c :: cs =>
    if c.isDigit then
      let (ds, rest) := takeDigits cs
      (c :: ds, rest)
    else
      ([], c :: cs)

/-- Numeric value of a digit list. -/
def digitsToNat (ds : List Char) : Nat :=
  ds.foldl (fun acc c => acc * 10 + (c.toNat - '0'.toNat)) 0

/-- Model of `datetime.strptime(s, "%Y-%m-%d")`, returning the proleptic
Gregorian ordinal of the parsed date on success. CPython accepts exactly
four digits for `%Y`, one or two digits for `%m` and `%d`, requires the
whole string to match, and rejects out-of-range months and days as well
as year 0 (`datetime.MINYEAR` is 1); malformed input raises `ValueError`,
modelled by `none`. -/
def strptimeYmd (s : String) : Option Nat :=
  let (yds, r1) := takeDigits s.data
  match r1 with
  | '-' :: r2 =>
    let (mds, r3) := takeDigits r2
    match r3 with
    | '-' :: r4 =>
      let (dds, r5) := takeDigits r4
      if yds.length == 4 && (mds.length == 1 || mds.length == 2) &&
          (dds.length == 1 || dds.length == 2) && r5.isEmpty then
        let y := digitsToNat yds
        let m := digitsToNat mds
        let d := digitsToNat dds
        if 1 ≤ y && 1 ≤ m && m ≤ 12 && 1 ≤ d && d ≤ daysInMonth y m then
          some (dateOrdinal y m d)
        else none
      else none
    | _ => none
  | _ => none

example : strptimeYmd "2025-09-20" = some (dateOrdinal 2025 9 20) := by decide
example : strptimeYmd "09/19/2025" = none := by decide
example : strptimeYmd "2025-02-30" = none := by decide
example : strptimeYmd "2025-09-20 " = none := by decide

/-!
Model of `difflib.SequenceMatcher(None, a, b).ratio()` as used by
`EventStore._is_similar_event`. This follows CPython's `difflib.py`:
`__chain_b` builds the position table of `b` (with `autojunk` discarding
popular elements only when `len(b) >= 200`), `find_longest_match` runs the
quadratic dynamic program with its extension loops (the junk set is empty
because `isjunk` is `None`), `get_matching_blocks` recursively splits
around each longest match, and the ratio is `2 * M / (len(a) + len(b))`
with `M` the total matched size, computed here as an exact rational. The
recursive splitting carries explicit fuel, always called with more fuel
than the number of splits the recursion can perform. -/

/-- Append position `i` of character `c` to the `b2j` table. -/
def b2jAdd (m : List (Char × List Nat)) (c : Char) (i : Nat) :
    List (Char × List Nat) :=
  if m.any (fun p => p.1 == c) then
    m.map (fun p => if p.1 == c then (p.1, p.2 ++ [i]) else p)
  else m ++ [(c, [i])]

/-- Position table of `b`, with `autojunk` popularity filtering for long
second sequences. -/
def chainB (b : List Char) : List (Char × List Nat) :=
  let raw := b.enum.foldl (fun m p => b2jAdd m p.2 p.1) []
  if b.length ≥ 200 then
    raw.filter (fun p => p.2.length ≤ b.length / 100 + 1)
  else raw

/-- State of `find_longest_match`: the best block found so far. -/
structure FlmState where
  besti : Nat
  bestj : Nat
  bestsize : Nat
deriving DecidableEq, Repr

/-- Length table lookup with Python's `j2len.get(j, 0)` default. -/
def j2lenGet (m : List (Nat × Nat)) (k : Nat) : Nat :=
  match m.lookup k with
  | some v => v
  | none => 0

/-- Inner loop of `find_longest_match` over the positions of `a[i]` in
`b` (in increasing order): skip positions below `blo`, stop at `bhi`,
extend the run lengths from the previous row and track the best block. -/
def flmRow (i blo bhi : Nat) (j2len : List (Nat × Nat)) :
    List Nat → List (Nat × Nat) → FlmState → (List (Nat × Nat) × FlmState)
  | [], acc, st => (acc, st)
  | j :: js, acc, st =>
    if j < blo then flmRow i blo bhi j2len js acc st
    else if j ≥ bhi then (acc, st)
    else
      let k := (if j = 0 then 0 else j2lenGet j2len (j - 1)) + 1
      let acc' := acc ++ [(j, k)]
      let st' := if k > st.bestsize then FlmState.mk (i + 1 - k) (j + 1 - k) k else st
      flmRow i blo bhi j2len js acc' st'

/-- Outer loop of `find_longest_match` over `i` in `range(alo, ahi)`. -/
def flmRows (a : List Char) (b2j : List (Char × List Nat)) (blo bhi : Nat) :
    List Nat → List (Nat × Nat) → FlmState → FlmState
  | [], _, st => st
  | i :: is, j2len, st =>
    let js := match b2j.lookup (a.getD i ' ') with
      | some l => l
      | none => []
    let (nj, st') := flmRow i blo bhi j2len js [] st
    flmRows a b2j blo bhi is nj st'

/-- Leftward extension loop of `find_longest_match`; `cond` is applied to
`b[bestj-1]` (negated junk membership in the first pass, junk membership
in the second). -/
def extendLo (a b : List Char) (alo blo : Nat) (cond : Char → Bool) :
    Nat → FlmState → FlmState
  | 0, st => st
  | fuel + 1, st =>
    if st.besti > alo && st.bestj > blo && cond (b.getD (st.bestj - 1) ' ') &&
        (a.getD (st.besti - 1) ' ' == b.getD (st.bestj - 1) ' ') then
      extendLo a b alo blo cond fuel
        (FlmState.mk (st.besti - 1) (st.bestj - 1) (st.bestsize + 1))
    else st

/-- Rightward extension loop of `find_longest_match`. -/
def extendHi (a b : List Char) (ahi bhi : Nat) (cond : Char → Bool) :
    Nat → FlmState → FlmState
  | 0, st => st
  | fuel + 1, st =>
    if st.besti + st.bestsize < ahi && st.bestj + st.bestsize < bhi &&
        cond (b.getD (st.bestj + st.bestsize) ' ') &&
        (a.getD (st.besti + st.bestsize) ' ' == b.getD (st.bestj + st.bestsize) ' ') then
      extendHi a b ahi bhi cond fuel
        (FlmState.mk st.besti st.bestj (st.bestsize + 1))
    else st

/-- Embedding of `SequenceMatcher.find_longest_match` on the slice
`a[alo:ahi]`, `b[blo:bhi]`. With `isjunk = None` the junk set is empty,
so the junk-extension passes use the constantly-false predicate. -/
def find_longest_match (a b : List Char) (b2j : List (Char × List Nat))
    (alo ahi blo bhi : Nat) : FlmState :=
  let bjunk : Char → Bool := fun _ => false
  let st := flmRows a b2j blo bhi (List.range' alo (ahi - alo)) []
    (FlmState.mk alo blo 0)
  let st := extendLo a b alo blo (fun c => !bjunk c) st.besti st
  let st := extendHi a b ahi bhi (fun c => !bjunk c) (ahi - (st.besti + st.bestsize)) st
  let st := extendLo a b alo blo bjunk st.besti st
  let st := extendHi a b ahi bhi bjunk (ahi - (st.besti + st.bestsize)) st
  st

/-- Total matched size over all matching blocks (`get_matching_blocks`
splits recursively around each longest match; the ratio only needs the
sum of block sizes, which is independent of the queue order). -/
def mblocksSum (a b : List Char) (b2j : List (Char × List Nat)) :
    Nat → List (Nat × Nat × Nat × Nat) → Nat
  | 0, _ => 0
  | _ + 1, [] => 0
  | fuel + 1, (alo, ahi, blo, bhi) :: rest =>
    let st := find_longest_match a b b2j alo ahi blo bhi
    if st.bestsize = 0 then mblocksSum a b b2j fuel rest
    else
      st.bestsize + mblocksSum a b b2j fuel
        ((if alo < st.besti && blo < st.bestj then
            [(alo, st.besti, blo, st.bestj)] else []) ++
         (if st.besti + st.bestsize < ahi && st.bestj + st.bestsize < bhi then
            [(st.besti + st.bestsize, ahi, st.bestj + st.bestsize, bhi)] else []) ++
         rest)

/-- Embedding of `difflib.SequenceMatcher(None, a, b).ratio()` as an exact
rational: `2 * M / (len(a) + len(b))`, or `1` when both are empty. -/
def seqMatcherRatio (a b : String) : ℚ :=
  let la := a.data.length
  let lb := b.data.length
  let m := mblocksSum a.data b.data (chainB b.data) (2 * (la + lb) + 4)
    [(0, la, 0, lb)]
  if la + lb = 0 then 1 else mkRat (2 * m) (la + lb)

example : seqMatcherRatio "abcd" "abcd" = 1 := by decide
example : seqMatcherRatio "abcd" "bcde" = mkRat 3 4 := by decide
example : seqMatcherRatio "abc" "xyz" = 0 := by decide

/-!
Configuration (`app/config.py`, reference values as returned by
`get_config()` when no custom override file is present). -/

/-- Reference `LEARNING_CONFIG["alias_confidence_threshold"]` (0.7). -/
def alias_confidence_threshold : ℚ := mkRat 7 10

/-- Reference `LEARNING_CONFIG["rolling_average_alpha"]` (0.3). -/
def rolling_average_alpha : ℚ := mkRat 3 10

/-- Reference `MIN_CONF["category"]` (0.6). -/
def min_confidence_category : ℚ := mkRat 3 5

/-- Reference `MIN_CONF["cuisine"]` (0.6). -/
def min_confidence_cuisine : ℚ := mkRat 3 5

/-- Reference `MAX_LLM_CALLS_PER_RUN` (10). -/
def max_llm_calls_per_run : Nat := 10

/-!
Data model for the dict-shaped payloads flowing through the store and the
post-processor (`app/store.py`, `app/postprocess.py`). Python dict lookups
with `.get` defaults are mirrored by `Option` fields; confidence scores
are exact rationals. -/

/-- Shape of the `confidence` sub-dict of an event or food item. -/
structure Confidence where
  category : Option ℚ
  cuisine : Option ℚ
deriving DecidableEq, Repr

/-- Shape of one entry of the `food` list of an event payload. -/
structure FoodItemD where
  name : PyObj
  quantity_hint : PyObj
  cuisine : Option String
  confidence : Option Confidence
deriving DecidableEq, Repr

/-- Shape of an event payload dict: the fields read or written by
`EventStore` and `PostProcessor._apply_confidence_filtering`. -/
structure EventDict where
  title : PyObj
  date_start : PyObj
  time_start : PyObj
  location : PyObj
  category : Option String
  confidence : Option Confidence
  food : Option (List FoodItemD)
deriving DecidableEq, Repr

/-- Learned-alias record (the per-name dict of `learned_aliases`).
`last_updated` is `none` only in the transient default record that
`learn_cuisine` builds for an unseen name before filling it in. -/
structure AliasData where
  last_cuisine : String
  rolling_confidence : ℚ
  sample_count : Nat
  last_updated : Option ℚ
deriving DecidableEq, Repr

/-- Cache record of `llm_cache`: the cached oracle payload plus its
timestamp; `none` models a timestamp string `datetime.fromisoformat`
rejects (possible only via a hand-edited store file). -/
structure CacheEntry where
  response : EventDict
  timestamp : Option ℚ
deriving DecidableEq, Repr

/-- In-memory contents of the persistent store (`self.data` minus the
metadata block, which no claim touches). -/
structure StoreData where
  learned_aliases : List (String × AliasData)
  llm_cache : List (String × CacheEntry)
  event_dedup : List (String × String)
deriving DecidableEq, Repr

/-- Store contents produced by `_load_data` for a fresh or unreadable
store file: all three maps empty. -/
def emptyStore : StoreData := ⟨[], [], []⟩

/-- Python dict lookup `d.get(k)` on an insertion-ordered dict modelled as
an association list. -/
def dictGet {α : Type} (k : String) : List (String × α) → Option α
  | [] => none
  | (k', v) :: rest => if k' == k then some v else dictGet k rest

/-- Python dict assignment `d[k] = v`: overwrite in place if the key
exists, else append. -/
def dictSet {α : Type} (k : String) (v : α) (m : List (String × α)) :
    List (String × α) :=
  if m.any (fun p => p.1 == k) then
    m.map (fun p => if p.1 == k then (k, v) else p)
  else m ++ [(k, v)]

/-!
Embedding of `app/store.py` (`EventStore`). The wall clock is passed
explicitly: each mutating method takes the `datetime.now()` value it would
read. Methods no claim reaches (`merge_event_data`, `get_stats`, the
JSON persistence plumbing) are not embedded. -/

/-- Embedding of `EventStore.get_learned_cuisine`. -/
def get_learned_cuisine (s : StoreData) (food_name : String) :
    Option (String × ℚ) :=
  let normalized_name := normStr food_name
  match dictGet normalized_name s.learned_aliases with
  | none => none
  | some alias_data =>
    if alias_data.rolling_confidence ≥ alias_confidence_threshold then
      some (alias_data.last_cuisine, alias_data.rolling_confidence)
    else none

/-- Embedding of `EventStore.learn_cuisine`: below the alias threshold the
call returns before touching the store; otherwise the record for the
normalized name (or the default record with rolling confidence 0.0 and
sample count 0) is blended by
`alpha * confidence + (1 - alpha) * old_confidence` and written back. -/
def learn_cuisine (now : ℚ) (s : StoreData) (food_name cuisine : String)
    (confidence : ℚ) : StoreData :=
  let normalized_name := normStr food_name
  if confidence < alias_confidence_threshold then s
  else
    let alias_data :=
      match dictGet normalized_name s.learned_aliases with
      | some a => a
      | none => AliasData.mk cuisine 0 0 none
    let new_confidence :=
      qadd (qmul rolling_average_alpha confidence)
        (qmul (qsub 1 rolling_average_alpha) alias_data.rolling_confidence)
    let alias_data' :=
      AliasData.mk cuisine new_confidence (alias_data.sample_count + 1) (some now)
    { s with learned_aliases := dictSet normalized_name alias_data' s.learned_aliases }

/-- Embedding of `EventStore.generate_cache_key`. -/
def generate_cache_key (message_id email_body : String) : String :=
  message_id ++ "_" ++ sha256_hexdigest16 email_body

/-- Embedding of `EventStore.get_cached_response`: a hit older than 24
hours (1 day in the day-based clock) is deleted and reported as a miss; an
unparsable timestamp is a miss that leaves the entry in place. Returns the
response (if any) and the possibly-pruned store. -/
def get_cached_response (now : ℚ) (s : StoreData) (cache_key : String) :
    Option EventDict × StoreData :=
  match dictGet cache_key s.llm_cache with
  | none => (none, s)
  | some entry =>
    match entry.timestamp with
    | some t =>
      if qsub now t > 1 then
        (none, { s with llm_cache := s.llm_cache.filter (fun p => p.1 ≠ cache_key) })
      else (some entry.response, s)
    | none => (none, s)

/-- Embedding of `EventStore.cache_response`. -/
def cache_response (now : ℚ) (s : StoreData) (cache_key : String)
    (response : EventDict) : StoreData :=
  { s with llm_cache := dictSet cache_key (CacheEntry.mk response (some now)) s.llm_cache }

/-- Embedding of `EventStore._is_similar_event`. The stored key is split
on `"|"`; fewer than 4 parts is an immediate `False`. A `date_start`
value that is missing or `None` makes `datetime.strptime` raise, which
the surrounding `try/except` turns into `False`, exactly like a malformed
date string. -/
def is_similar_event (event_data : EventDict) (stored_key : String) : Bool :=
  let stored_parts := splitOnChar '|' stored_key.data
  if stored_parts.length < 4 then false
  else
    let stored_title : String := ⟨stored_parts.getD 0 []⟩
    let stored_date : String := ⟨stored_parts.getD 1 []⟩
    let stored_location : String := ⟨stored_parts.getD 3 []⟩
    let title_similarity := seqMatcherRatio (norm_text event_data.title) stored_title
    if title_similarity < mkRat 9 10 then false
    else
      let event_date :=
        match event_data.date_start with
        | .ostr ds => strptimeYmd ds
        | .onone => none
      match event_date, strptimeYmd stored_date with
      | some d1, some d2 =>
        if ((d1 : ℤ) - (d2 : ℤ)).natAbs > 1 then false
        else
          let event_location := norm_text event_data.location
          if event_location ≠ "" && stored_location ≠ "" then
            !(seqMatcherRatio event_location stored_location < mkRat 4 5)
          else true
      | _, _ => false

/-- Embedding of `EventStore.is_duplicate_event`: exact primary-key match
first, then the linear fuzzy scan over every registered entry. -/
def is_duplicate_event (s : StoreData) (event_data : EventDict) : Option String :=
  let primary_key := event_dedupe_key event_data.title event_data.date_start
    event_data.time_start event_data.location
  match dictGet primary_key s.event_dedup with
  | some eid => some eid
  | none =>
    (s.event_dedup.find? (fun p => is_similar_event event_data p.1)).map (fun p => p.2)

/-- Embedding of `EventStore.register_event`. -/
def register_event (s : StoreData) (event_id : String) (event_data : EventDict) :
    StoreData :=
  let primary_key := event_dedupe_key event_data.title event_data.date_start
    event_data.time_start event_data.location
  { s with event_dedup := dictSet primary_key event_id s.event_dedup }

/-- Embedding of `EventStore.cleanup_old_data`: a cache entry is removed
when its timestamp parses and is older than the cutoff, or fails to parse
(`ValueError`/`KeyError`); a dedup entry is removed when `key.split("|")[1]`
raises `IndexError`, or its date fails `strptime`, or parses and is older
than the cutoff. Learned aliases are not touched. -/
def cleanup_old_data (now : ℚ) (days : Nat) (s : StoreData) : StoreData :=
  let cutoff_date := qsub now (days : ℚ)
  let keep_cache := fun (p : String × CacheEntry) =>
    match p.2.timestamp with
    | some t => !(t < cutoff_date)
    | none => false
  let keep_dedup := fun (p : String × String) =>
    let parts := splitOnChar '|' p.1.data
    if parts.length < 2 then false
    else
      match strptimeYmd ⟨parts.getD 1 []⟩ with
      | some d => !((d : ℚ) < cutoff_date)
      | none => false
  { s with
    llm_cache := s.llm_cache.filter keep_cache,
    event_dedup := s.event_dedup.filter keep_dedup }

/-!
Embedding of the gating filter `LLMParser._is_event_like`
(`app/parser_llm.py`). The configured keyword lists are transcribed from
`app/config.py`; the seven `EVENT_TIME_PATTERNS` regular expressions are
compiled by hand into a small matcher whose semantics is existential
(`re.search`): the pattern matches somewhere in the text. The searches run
over `norm_text` output, which is already casefolded, so `re.IGNORECASE`
is realized by spelling the literals in lowercase. -/

/-- Transcription of `config.EVENT_KEYWORD_PATTERNS`. -/
def event_keyword_patterns : List String :=
  [ "event", "meeting", "workshop", "seminar", "talk", "lecture",
    "conference", "gathering", "session", "presentation", "party",
    "celebration", "dinner", "lunch", "breakfast", "reception",
    "ceremony", "festival", "fair", "exhibition", "audition", "tryout",
    "info session", "kickoff", "launch", "orientation", "show", "comedy",
    "performance", "concert", "theater", "theatre", "movie", "film",
    "screening", "demo", "demonstration", "tour", "visit", "open house",
    "mixer", "networking", "social", "hangout", "get together",
    "bread", "food", "snack", "treat", "refreshments", "catering",
    "pizza", "cookies", "cake", "coffee", "tea", "drinks",
    "community", "join", "please join", "come", "everyone" ]

/-- Transcription of `config.LOCATION_KEYWORD_PATTERNS`. -/
def location_keyword_patterns : List String :=
  [ "location", "where", "room", "hall", "building", "address",
    "venue", "place", "site", "campus", "center", "centre" ]

/-- Model of Python's `\w` (word character) on the supported repertoire:
letters, digits, underscore. -/
def isWordChar (c : Char) : Bool := c.isAlphanum || c == '_'

/-- Token of a hand-compiled regular expression: a single character from a
class, a counted repetition of a class, a Kleene star of a class, an
alternation of literal strings, or a word boundary. -/
inductive RTok where
  | cl (f : Char → Bool)
  | rep (f : Char → Bool) (lo hi : Nat)
  | star (f : Char → Bool)
  | lits (ss : List String)
  | wb

/-- All states reachable by consuming up to `hi` characters of class `f`:
triples of (number consumed, new previous character, remainder). -/
def repStates (f : Char → Bool) : Nat → Option Char → List Char →
    List (Nat × Option Char × List Char)
  | 0, prev, l => [(0, prev, l)]
  | _ + 1, prev, [] => [(0, prev, [])]
  | hi + 1, prev, c :: cs =>
    (0, prev, c :: cs) ::
      (if f c then
        (repStates f hi (some c) cs).map (fun t => (t.1 + 1, t.2.1, t.2.2))
      else [])

/-- Nondeterministic single-token step: all (previous character,
remainder) states after the token. For the existential `re.search`
semantics, exploring every split of a repetition is equivalent to
backtracking. -/
def tokMatches : RTok → Option Char → List Char → List (Option Char × List Char)
  | .cl _, _, [] => []
  | .cl f, _, c :: cs => if f c then [(some c, cs)] else []
  | .rep f lo hi, prev, l =>
    (repStates f hi prev l).filterMap
      (fun t => if lo ≤ t.1 then some (t.2.1, t.2.2) else none)
  | .star f, prev, l =>
    (repStates f l.length prev l).map (fun t => (t.2.1, t.2.2))
  | .lits ss, prev, l =>
    ss.filterMap (fun s0 =>
      if s0.data.isPrefixOf l then
        some (match s0.data.getLast? with
          | some c => some c
          | none => prev, l.drop s0.data.length)
      else none)
  | .wb, prev, l =>
    let wl := match prev with
      | some c => isWordChar c
      | none => false
    let wr := match l with
      | c :: _ => isWordChar c
      | [] => false
    if wl != wr then [(prev, l)] else []

/-- Match a token sequence at the current position. -/
def seqMatch : List RTok → Option Char → List Char → Bool
  | [], _, _ => true
  | t :: ts, prev, l => (tokMatches t prev l).any (fun pr => seqMatch ts pr.1 pr.2)

/-- Try the pattern at the current and every later position. -/
def regexSearchAux (p : List RTok) : Option Char → List Char → Bool
  | prev, [] => seqMatch p prev []
  | prev, c :: cs => seqMatch p prev (c :: cs) || regexSearchAux p (some c) cs

/-- Model of `re.search(pattern, s)` returning whether a match exists. -/
def regexSearch (p : List RTok) (s : String) : Bool :=
  regexSearchAux p none s.data

/-- Hand compilation of `config.EVENT_TIME_PATTERNS` (searched with
`re.IGNORECASE` over casefolded text). -/
def event_time_patterns : List (List RTok) :=
  [ -- \b\d{1,2}:\d{2}\s*(am|pm|AM|PM)\b
    [.wb, .rep Char.isDigit 1 2, .cl (fun c => c == ':'), .rep Char.isDigit 2 2,
     .star isPySpace, .lits ["am", "pm"], .wb],
    -- \b\d{1,2}/\d{1,2}/\d{2,4}\b
    [.wb, .rep Char.isDigit 1 2, .cl (fun c => c == '/'), .rep Char.isDigit 1 2,
     .cl (fun c => c == '/'), .rep Char.isDigit 2 4, .wb],
    -- \b\d{4}-\d{2}-\d{2}\b
    [.wb, .rep Char.isDigit 4 4, .cl (fun c => c == '-'), .rep Char.isDigit 2 2,
     .cl (fun c => c == '-'), .rep Char.isDigit 2 2, .wb],
    -- \b(mon|tue|wed|thu|fri|sat|sun)day\b
    [.wb, .lits ["mon", "tue", "wed", "thu", "fri", "sat", "sun"], .lits ["day"], .wb],
    -- \b(jan|feb|mar|apr|may|jun|jul|aug|sep|oct|nov|dec)\w*\b
    [.wb, .lits ["jan", "feb", "mar", "apr", "may", "jun", "jul", "aug", "sep",
      "oct", "nov", "dec"], .star isWordChar, .wb],
    -- \b(today|tomorrow|tonight|this week|next week)\b
    [.wb, .lits ["today", "tomorrow", "tonight", "this week", "next week"], .wb],
    -- \b(morning|afternoon|evening|night)\b
    [.wb, .lits ["morning", "afternoon", "evening", "night"], .wb] ]

/-- Python `any(keyword in text for keyword in kws)`. -/
def hasAnyKeyword (kws : List String) (text : String) : Bool :=
  kws.any (fun k => substrB k.data text.data)

/-- Embedding of `LLMParser._is_event_like`: empty or short (< 100
normalized characters) bodies are rejected; a keyword in the subject makes
the message event-like outright; otherwise a short body (< 200 characters)
containing "mailing list" is rejected as a footer, and the message is
event-like iff the body has an event keyword or both a time pattern and a
location keyword. -/
def is_event_like (email_content subject : String) : Bool :=
  if email_content == "" then false
  else
    let content_normalized := normStr email_content
    if content_normalized.length < 100 then false
    else
      let content_lower := normStr email_content
      let subject_lower := normStr subject
      let has_event_keywords_in_subject :=
        hasAnyKeyword event_keyword_patterns subject_lower
      let has_event_keywords_in_content :=
        hasAnyKeyword event_keyword_patterns content_lower
      if has_event_keywords_in_subject then
        let has_event_keywords := true
        let has_time_patterns :=
          event_time_patterns.any (fun p => regexSearch p content_normalized)
        let has_location := hasAnyKeyword location_keyword_patterns content_lower
        has_event_keywords || (has_time_patterns && has_location)
      else if content_normalized.length < 200 &&
          substrB "mailing list".data content_normalized.data then false
      else
        let has_event_keywords := has_event_keywords_in_content
        let has_time_patterns :=
          event_time_patterns.any (fun p => regexSearch p content_normalized)
        let has_location := hasAnyKeyword location_keyword_patterns content_lower
        has_event_keywords || (has_time_patterns && has_location)

/-!
Embedding of `LLMParser.parse_email` and `LLMParser.parse_emails_batch`
(`app/parser_llm.py`). The external oracle call is a parameter: an
`OracleResp` describes what `client.chat.completions.create` does for
this email (raise, or return text classified as the DROP sentinel, a
JSON payload, or non-JSON garbage). Downstream payload processing
(`_process_llm_response`: pydantic validation plus mailing-list
extraction) is likewise a parameter, since no verified claim reaches it.
The observable outcome records the returned value, whether the oracle was
contacted, and which logger calls fired, in order. -/

/-- Behavior of the oracle for one email. -/
inductive OracleResp where
  | odrop
  | ojson (d : EventDict)
  | obad
  | oraise
deriving DecidableEq, Repr

/-- Logger calls reachable in `parse_email`, one constructor per call
site: the budget warning, the gating debug, the cache-hit debug, the
DROP info, the JSON-decode error, and the outer exception handler. -/
inductive LogEvent where
  | maxCallsReached
  | gatedOut
  | usingCachedResponse
  | droppedNoEvent
  | jsonDecodeError
  | outerError
deriving DecidableEq, Repr

/-- Mutable parser state: the per-run call counter and the store. -/
structure PEState where
  llm_calls_made : Nat
  store : StoreData
deriving DecidableEq, Repr

/-- Observable outcome of one `parse_email` call. -/
structure PEOut (α : Type) where
  ret : Option α
  oracle_called : Bool
  logs : List LogEvent
deriving DecidableEq, Repr

/-- Embedding of `LLMParser.parse_email`. Exhausted budget returns `None`
before anything else; then gating; then the cache (whose lookup may prune
a stale entry); on a miss the oracle is contacted, the call counter is
incremented as soon as the call returns (not when it raises), the DROP
sentinel and JSON-decode failures return `None`, and a decoded payload is
cached and handed to the processing stage. -/
def parse_email {α : Type} (proc : EventDict → String → String → Option α)
    (oracle : OracleResp) (now : ℚ) (st : PEState)
    (email_content message_id subject : String) : PEOut α × PEState :=
  if st.llm_calls_made ≥ max_llm_calls_per_run then
    (PEOut.mk none false [LogEvent.maxCallsReached], st)
  else if !(is_event_like email_content subject) then
    (PEOut.mk none false [LogEvent.gatedOut], st)
  else
    let cache_key := generate_cache_key message_id email_content
    match get_cached_response now st.store cache_key with
    | (some cached, store') =>
      (PEOut.mk (proc cached message_id subject) false [LogEvent.usingCachedResponse],
        PEState.mk st.llm_calls_made store')
    | (none, store') =>
      match oracle with
      | .oraise =>
        (PEOut.mk none true [LogEvent.outerError], PEState.mk st.llm_calls_made store')
      | .odrop =>
        (PEOut.mk none true [LogEvent.droppedNoEvent],
          PEState.mk (st.llm_calls_made + 1) store')
      | .obad =>
        (PEOut.mk none true [LogEvent.jsonDecodeError],
          PEState.mk (st.llm_calls_made + 1) store')
      | .ojson d =>
        let store2 := cache_response now store' cache_key d
        (PEOut.mk (proc d message_id subject) true [],
          PEState.mk (st.llm_calls_made + 1) store2)

/-- One email of a batch, paired with what the oracle would do for it. -/
structure EmailMsg where
  body : String
  message_id : String
  subject : String
deriving DecidableEq, Repr

/-- Loop body of `parse_emails_batch`: stop issuing work as soon as the
call budget is reached, otherwise parse and collect non-`None` results. -/
def parse_emails_batch_go {α : Type} (proc : EventDict → String → String → Option α)
    (now : ℚ) : PEState → List (EmailMsg × OracleResp) → List α × PEState
  | st, [] => ([], st)
  | st, (em, orr) :: rest =>
    if st.llm_calls_made ≥ max_llm_calls_per_run then ([], st)
    else
      let (out, st') := parse_email proc orr now st em.body em.message_id em.subject
      let (evs, stf) := parse_emails_batch_go proc now st' rest
      (match out.ret with
        | some e => e :: evs
        | none => evs, stf)

/-- Embedding of `LLMParser.parse_emails_batch`: the call counter is reset
to 0 at the start of every batch run. -/
def parse_emails_batch {α : Type} (proc : EventDict → String → String → Option α)
    (now : ℚ) (st : PEState) (emails : List (EmailMsg × OracleResp)) :
    List α × PEState :=
  parse_emails_batch_go proc now (PEState.mk 0 st.store) emails

/-!
Embedding of `PostProcessor._apply_confidence_filtering`
(`app/postprocess.py`). -/

/-- Python truthiness of the `category` field: present and non-empty. -/
def categoryTruthy (c : Option String) : Bool :=
  match c with
  | some s => s ≠ ""
  | none => false

/-- Python `data.get('confidence', {}).get('category', 1.0)`. -/
def categoryConfOf (data : EventDict) : ℚ :=
  match data.confidence with
  | some c =>
    match c.category with
    | some q => q
    | none => 1
  | none => 1

/-- Python `item.get('confidence', {}).get('cuisine', 1.0)`. -/
def cuisineConfOf (item : FoodItemD) : ℚ :=
  match item.confidence with
  | some c =>
    match c.cuisine with
    | some q => q
    | none => 1
  | none => 1

/-- Embedding of `PostProcessor._apply_confidence_filtering`: a truthy
category whose confidence is strictly below the category threshold is
nulled; each food item whose cuisine confidence is strictly below the
cuisine threshold has its cuisine (only) nulled; every food item and the
event itself are retained. All food entries are dicts in this model, so
the `isinstance(item, dict)` guard keeps every item. -/
def apply_confidence_filtering (data : EventDict) : EventDict :=
  let data1 :=
    if categoryTruthy data.category then
      if categoryConfOf data < min_confidence_category then
        { data with category := none }
      else data
    else data
  match data1.food with
  | some items =>
    { data1 with food := some (items.map (fun item =>
        if cuisineConfOf item < min_confidence_cuisine then
          { item with cuisine := none }
        else item)) }
  | none => data1

/-!
Auxiliary predicates describing whitespace-normal form, used to prove that
`norm_text` is idempotent. -/

/-- Every whitespace character in the list is the plain space. -/
def plainSpaceOnly (l : List Char) : Bool :=
  l.all (fun c => !isPySpace c || c == ' ')

/-- No two adjacent whitespace characters. -/
def noAdjSpace : List Char → Bool
  | [] => true
  | [_] => true
  | c :: d :: rest => !(isPySpace c && isPySpace d) && noAdjSpace (d :: rest)

/-- The first character, if any, is not whitespace. -/
def headNotSpace : List Char → Bool
  | [] => true
  | c :: _ => !isPySpace c

/-- The last character, if any, is not whitespace. -/
def lastNotSpace : List Char → Bool
  | [] => true
  | [c] => !isPySpace c
  | _ :: c :: rest => lastNotSpace (c :: rest)

/-!
Theorems. Claim theorems are named `C1_...` through `C10_...`; the
supporting lemmas precede them. -/

theorem lookup_mem_pairs {α β : Type} [BEq α] [LawfulBEq α] {a : α} {b : β} :
    ∀ {l : List (α × β)}, l.lookup a = some b → (a, b) ∈ l := by
  intro l
  induction l with
  | nil => intro h; simp [List.lookup] at h
  | cons p rest ih =>
    obtain ⟨k, v⟩ := p
    intro h
    simp only [List.lookup] at h
    cases hka : a == k with
    | false => rw [hka] at h; exact List.mem_cons_of_mem _ (ih h)
    | true =>
      rw [hka] at h
      cases h
      have hk : a = k := eq_of_beq hka
      subst hk
      exact List.mem_cons_self _ _

theorem foldCharTable_stable :
    ∀ p ∈ foldCharTable, ∀ d ∈ p.2, foldCharTable.lookup d = none := by decide

theorem foldChar_stable {c d : Char} (hd : d ∈ foldChar c) : foldChar d = [d] := by
  unfold foldChar at hd ⊢
  cases h : foldCharTable.lookup c with
  | none =>
    rw [h] at hd
    simp only [List.mem_singleton] at hd
    subst hd
    rw [h]
  | some l =>
    rw [h] at hd
    have hmem := lookup_mem_pairs h
    have hnone := foldCharTable_stable (c, l) hmem d hd
    rw [hnone]

theorem mem_foldStr {d : Char} : ∀ {l : List Char}, d ∈ foldStr l →
    ∃ c ∈ l, d ∈ foldChar c := by
  intro l
  induction l with
  | nil => intro h; simp [foldStr] at h
  | cons c cs ih =>
    intro h
    rw [foldStr, List.mem_append] at h
    cases h with
    | inl h => exact ⟨c, List.mem_cons_self _ _, h⟩
    | inr h =>
      obtain ⟨c', hc', hd⟩ := ih h
      exact ⟨c', List.mem_cons_of_mem _ hc', hd⟩

theorem foldStr_fixed : ∀ {l : List Char}, (∀ d ∈ l, foldChar d = [d]) →
    foldStr l = l := by
  intro l
  induction l with
  | nil => intro _; rfl
  | cons c cs ih =>
    intro h
    rw [foldStr, h c (List.mem_cons_self _ _), ih (fun d hd => h d (List.mem_cons_of_mem _ hd))]
    rfl

theorem mem_collapseWs {d : Char} : ∀ {b : Bool} {l : List Char},
    d ∈ collapseWs b l → d = ' ' ∨ (d ∈ l ∧ isPySpace d = false) := by
  intro b l
  induction l generalizing b with
  | nil => intro h; simp [collapseWs] at h
  | cons c cs ih =>
    intro h
    rw [collapseWs] at h
    split at h
    · split at h
      · rcases ih h with h | h
        · exact Or.inl h
        · exact Or.inr ⟨List.mem_cons_of_mem _ h.1, h.2⟩
      · rcases List.mem_cons.mp h with h | h
        · exact Or.inl h
        · rcases ih h with h | h
          · exact Or.inl h
          · exact Or.inr ⟨List.mem_cons_of_mem _ h.1, h.2⟩
    · rcases List.mem_cons.mp h with h | h
      · subst h
        rename_i hns
        exact Or.inr ⟨List.mem_cons_self _ _, by simpa using hns⟩
      · rcases ih h with h | h
        · exact Or.inl h
        · exact Or.inr ⟨List.mem_cons_of_mem _ h.1, h.2⟩

theorem mem_stripEnd {d : Char} : ∀ {l : List Char}, d ∈ stripEnd l → d ∈ l := by
  intro l
  induction l with
  | nil => intro h; simp [stripEnd] at h
  | cons c cs ih =>
    intro h
    rw [stripEnd] at h
    split at h
    · simp at h
    · rcases List.mem_cons.mp h with h | h
      · exact h ▸ List.mem_cons_self _ _
      · exact List.mem_cons_of_mem _ (ih h)

theorem mem_dropWhile {d : Char} {p : Char → Bool} :
    ∀ {l : List Char}, d ∈ l.dropWhile p → d ∈ l := by
  intro l
  induction l with
  | nil => intro h; simp [List.dropWhile] at h
  | cons c cs ih =>
    intro h
    rw [List.dropWhile] at h
    split at h
    · exact List.mem_cons_of_mem _ (ih h)
    · exact h

theorem mem_stripWs {d : Char} {l : List Char} (h : d ∈ stripWs l) : d ∈ l :=
  mem_dropWhile (mem_stripEnd h)

theorem noAdjSpace_of_cons {c : Char} {l : List Char}
    (h : noAdjSpace (c :: l) = true) : noAdjSpace l = true := by
  cases l with
  | nil => rfl
  | cons d ds =>
    rw [noAdjSpace] at h
    exact (Bool.and_eq_true_iff.mp h).2

theorem pair_of_noAdjSpace {c d : Char} {l : List Char}
    (h : noAdjSpace (c :: d :: l) = true) : (isPySpace c && isPySpace d) = false := by
  rw [noAdjSpace] at h
  have h1 := (Bool.and_eq_true_iff.mp h).1
  cases hcd : (isPySpace c && isPySpace d)
  · rfl
  · rw [hcd] at h1
    simp at h1

theorem headNotSpace_collapseWs_true : ∀ (l : List Char),
    headNotSpace (collapseWs true l) = true := by
  intro l
  induction l with
  | nil => rfl
  | cons c cs ih =>
    rw [collapseWs]
    split
    · simpa using ih
    · rename_i hns
      rw [headNotSpace]
      simpa using hns

theorem noAdjSpace_collapseWs : ∀ (l : List Char) (b : Bool),
    noAdjSpace (collapseWs b l) = true := by
  intro l
  induction l with
  | nil => intro b; rfl
  | cons c cs ih =>
    intro b
    rw [collapseWs]
    split
    · split
      · exact ih true
      · have hh := headNotSpace_collapseWs_true cs
        have hn := ih true
        cases hX : collapseWs true cs with
        | nil => rfl
        | cons d ds =>
          rw [hX] at hh hn
          rw [headNotSpace] at hh
          rw [noAdjSpace, hn]
          have hd : isPySpace d = false := by simpa using hh
          simp [hd]
    · rename_i hns
      have hn := ih false
      cases hX : collapseWs false cs with
      | nil => rfl
      | cons d ds =>
        rw [hX] at hn
        rw [noAdjSpace, hn]
        have hc : isPySpace c = false := by simpa using hns
        simp [hc]

theorem noAdjSpace_dropWhile {p : Char → Bool} : ∀ {l : List Char},
    noAdjSpace l = true → noAdjSpace (l.dropWhile p) = true := by
  intro l
  induction l with
  | nil => intro _; rfl
  | cons c cs ih =>
    intro h
    rw [List.dropWhile]
    split
    · exact ih (noAdjSpace_of_cons h)
    · exact h

theorem stripEnd_shape (c : Char) (cs : List Char) :
    stripEnd (c :: cs) = [] ∨ stripEnd (c :: cs) = c :: stripEnd cs := by
  rw [stripEnd]
  split
  · exact Or.inl rfl
  · exact Or.inr rfl

theorem noAdjSpace_stripEnd : ∀ {l : List Char},
    noAdjSpace l = true → noAdjSpace (stripEnd l) = true := by
  intro l
  induction l with
  | nil => intro _; rfl
  | cons c cs ih =>
    intro h
    rcases stripEnd_shape c cs with hs | hs
    · rw [hs]; rfl
    · rw [hs]
      have hcs := ih (noAdjSpace_of_cons h)
      cases hX : stripEnd cs with
      | nil => rfl
      | cons d ds =>
        rw [hX] at hcs
        rw [noAdjSpace, hcs]
        cases cs with
        | nil => simp [stripEnd] at hX
        | cons e es =>
          rcases stripEnd_shape e es with hs2 | hs2
          · rw [hs2] at hX
            simp at hX
          · rw [hs2] at hX
            injection hX with hde _
            subst hde
            have hp := pair_of_noAdjSpace h
            simp [hp]

theorem headNotSpace_dropWhile : ∀ (l : List Char),
    headNotSpace (l.dropWhile (fun c => isPySpace c)) = true := by
  intro l
  induction l with
  | nil => rfl
  | cons c cs ih =>
    rw [List.dropWhile]
    split
    · exact ih
    · rename_i hns
      rw [headNotSpace]
      simpa using hns

theorem stripEnd_headNotSpace : ∀ {l : List Char},
    headNotSpace l = true → headNotSpace (stripEnd l) = true := by
  intro l
  cases l with
  | nil => intro _; rfl
  | cons c cs =>
    intro h
    rcases stripEnd_shape c cs with hs | hs
    · rw [hs]; rfl
    · rw [hs]
      exact h

theorem lastNotSpace_stripEnd : ∀ (l : List Char),
    lastNotSpace (stripEnd l) = true := by
  intro l
  induction l with
  | nil => rfl
  | cons c cs ih =>
    rw [stripEnd]
    split
    · rfl
    · rename_i hcond
      cases hX : stripEnd cs with
      | nil =>
        rw [hX] at hcond
        rw [lastNotSpace]
        simpa using hcond
      | cons d ds =>
        rw [hX] at ih
        rw [lastNotSpace]
        exact ih

theorem dropWhile_id {l : List Char} (h : headNotSpace l = true) :
    l.dropWhile (fun c => isPySpace c) = l := by
  cases l with
  | nil => rfl
  | cons c cs =>
    rw [headNotSpace] at h
    rw [List.dropWhile]
    split
    · rename_i hc
      rw [hc] at h
      simp at h
    · rfl

theorem stripEnd_id : ∀ {l : List Char}, lastNotSpace l = true → stripEnd l = l := by
  intro l
  induction l with
  | nil => intro _; rfl
  | cons c cs ih =>
    intro h
    cases cs with
    | nil =>
      rw [lastNotSpace] at h
      rw [stripEnd]
      simp [stripEnd]
      simpa using h
    | cons d ds =>
      rw [lastNotSpace] at h
      have hcs := ih h
      rw [stripEnd, hcs]
      simp

theorem stripWs_id {l : List Char} (h1 : headNotSpace l = true)
    (h2 : lastNotSpace l = true) : stripWs l = l := by
  rw [stripWs, dropWhile_id h1, stripEnd_id h2]

theorem collapseWs_id : ∀ (l : List Char),
    (∀ d ∈ l, isPySpace d = true → d = ' ') → noAdjSpace l = true →
    (collapseWs false l = l ∧ (headNotSpace l = true → collapseWs true l = l)) := by
  intro l
  induction l with
  | nil => intro _ _; exact ⟨rfl, fun _ => rfl⟩
  | cons c cs ih =>
    intro hplain hadj
    have hplain' : ∀ d ∈ cs, isPySpace d = true → d = ' ' :=
      fun d hd => hplain d (List.mem_cons_of_mem _ hd)
    have ihcs := ih hplain' (noAdjSpace_of_cons hadj)
    cases hsp : isPySpace c with
    | false =>
      constructor
      · rw [collapseWs, hsp]
        simp only [Bool.false_eq_true, if_false]
        rw [ihcs.1]
      · intro _
        rw [collapseWs, hsp]
        simp only [Bool.false_eq_true, if_false]
        rw [ihcs.1]
    | true =>
      have hc : c = ' ' := hplain c (List.mem_cons_self _ _) hsp
      constructor
      · rw [collapseWs, hsp]
        have htail : collapseWs true cs = cs := by
          cases cs with
          | nil => rfl
          | cons d ds =>
            have hd : isPySpace d = false := by
              have hp := pair_of_noAdjSpace hadj
              rw [hsp] at hp
              simpa using hp
            exact ihcs.2 (by rw [headNotSpace, hd]; rfl)
        simp [htail, hc]
      · intro hh
        rw [headNotSpace, hsp] at hh
        simp at hh

theorem normWs_of_good (y : List Char)
    (hstable : ∀ d ∈ y, foldChar d = [d])
    (hplain : ∀ d ∈ y, isPySpace d = true → d = ' ')
    (hadj : noAdjSpace y = true) (hhead : headNotSpace y = true)
    (hlast : lastNotSpace y = true) :
    stripWs (collapseWs false (foldStr y)) = y := by
  rw [foldStr_fixed hstable, (collapseWs_id y hplain hadj).1, stripWs_id hhead hlast]

theorem normStr_idem (s : String) : normStr (normStr s) = normStr s := by
  have hmem : ∀ d ∈ stripWs (collapseWs false (foldStr s.data)),
      d = ' ' ∨ (d ∈ foldStr s.data ∧ isPySpace d = false) :=
    fun _ hd => mem_collapseWs (mem_stripWs hd)
  have hstable : ∀ d ∈ stripWs (collapseWs false (foldStr s.data)),
      foldChar d = [d] := by
    intro d hd
    rcases hmem d hd with h | h
    · rw [h]; decide
    · rcases mem_foldStr h.1 with ⟨c, _, hdc⟩
      exact foldChar_stable hdc
  have hplain : ∀ d ∈ stripWs (collapseWs false (foldStr s.data)),
      isPySpace d = true → d = ' ' := by
    intro d hd hsp
    rcases hmem d hd with h | h
    · exact h
    · rw [h.2] at hsp
      cases hsp
  have hadj : noAdjSpace (stripWs (collapseWs false (foldStr s.data))) = true :=
    noAdjSpace_stripEnd (noAdjSpace_dropWhile (noAdjSpace_collapseWs _ false))
  have hhead : headNotSpace (stripWs (collapseWs false (foldStr s.data))) = true :=
    stripEnd_headNotSpace (headNotSpace_dropWhile _)
  have hlast : lastNotSpace (stripWs (collapseWs false (foldStr s.data))) = true :=
    lastNotSpace_stripEnd _
  exact congrArg String.mk
    (normWs_of_good _ hstable hplain hadj hhead hlast)

/-- C9: for every input value x (non-string values normalize to the empty
string), normalization is idempotent: normalize(normalize(x)) equals
normalize(x). -/
theorem C9_normalize_idempotent (x : PyObj) :
    norm_text (.ostr (norm_text x)) = norm_text x := by
  cases x with
  | ostr s => exact normStr_idem s
  | onone => rfl

theorem mem_dictSet {α : Type} {k : String} {v : α} {m : List (String × α)} :
    ∀ {p : String × α}, p ∈ dictSet k v m → p = (k, v) ∨ p ∈ m := by
  intro p hp
  rw [dictSet] at hp
  split at hp
  · rcases List.mem_map.mp hp with ⟨q, hq, hpq⟩
    by_cases hqk : (q.1 == k) = true
    · rw [if_pos hqk] at hpq
      exact Or.inl hpq.symm
    · rw [if_neg hqk] at hpq
      exact Or.inr (hpq ▸ hq)
  · rcases List.mem_append.mp hp with h | h
    · exact Or.inr h
    · simp only [List.mem_singleton] at h
      exact Or.inl h

theorem mem_of_dictGet {α : Type} {k : String} {v : α} :
    ∀ {m : List (String × α)}, dictGet k m = some v → (k, v) ∈ m := by
  intro m
  induction m with
  | nil => intro h; simp [dictGet] at h
  | cons p rest ih =>
    obtain ⟨k', v'⟩ := p
    intro h
    rw [dictGet] at h
    split at h
    · rename_i hk
      cases h
      have hk' : k' = k := eq_of_beq hk
      subst hk'
      exact List.mem_cons_self _ _
    · exact List.mem_cons_of_mem _ (ih h)

theorem dictGet_dictSet_self {α : Type} (k : String) (v : α) :
    ∀ (m : List (String × α)), dictGet k (dictSet k v m) = some v := by
  intro m
  induction m with
  | nil => simp [dictSet, dictGet]
  | cons p rest ih =>
    rw [dictSet]
    by_cases hany : ((p :: rest).any (fun q => q.1 == k)) = true
    · rw [if_pos hany, List.map_cons]
      by_cases hpk : (p.1 == k) = true
      · rw [if_pos hpk, dictGet]
        simp
      · rw [if_neg hpk, dictGet, if_neg hpk]
        have hrest : (rest.any (fun q => q.1 == k)) = true := by
          rcases List.any_eq_true.mp hany with ⟨q, hq, hqk⟩
          rcases List.mem_cons.mp hq with h | h
          · exact absurd (h ▸ hqk) hpk
          · exact List.any_eq_true.mpr ⟨q, h, hqk⟩
        rw [dictSet, if_pos hrest] at ih
        exact ih
    · rw [if_neg hany]
      have hpk : (p.1 == k) = false := by
        cases hpk2 : (p.1 == k)
        · rfl
        · exact absurd (List.any_eq_true.mpr ⟨p, List.mem_cons_self _ _, hpk2⟩) hany
      have hrest : (rest.any (fun q => q.1 == k)) = false := by
        cases hr : (rest.any (fun q => q.1 == k))
        · rfl
        · rcases List.any_eq_true.mp hr with ⟨q, hq, hqk⟩
          exact absurd (List.any_eq_true.mpr ⟨q, List.mem_cons_of_mem _ hq, hqk⟩) hany
      rw [List.cons_append, dictGet, if_neg (by rw [hpk]; simp)]
      rw [dictSet, if_neg (by rw [hrest]; simp)] at ih
      exact ih

/-- C5: learning with confidence strictly below the alias-confidence
threshold is a no-op: the store is unchanged and every subsequent
`get_learned_cuisine` answers exactly as before. -/
theorem C5_learn_below_threshold_noop (now : ℚ) (s : StoreData)
    (food_name cuisine : String) (confidence : ℚ)
    (h : confidence < alias_confidence_threshold) :
    learn_cuisine now s food_name cuisine confidence = s ∧
    ∀ q : String,
      get_learned_cuisine (learn_cuisine now s food_name cuisine confidence) q =
        get_learned_cuisine s q := by
  have h1 : learn_cuisine now s food_name cuisine confidence = s := by
    rw [learn_cuisine, if_pos h]
  exact ⟨h1, fun q => by rw [h1]⟩

theorem C5_witness :
    mkRat 3 10 < alias_confidence_threshold ∧
    learn_cuisine 0 emptyStore "sushi" "Japanese" (mkRat 3 10) = emptyStore ∧
    get_learned_cuisine (learn_cuisine 0 emptyStore "sushi" "Japanese" (mkRat 3 10))
      "sushi" = none := by
  refine ⟨by decide, ?_, ?_⟩
  · exact (C5_learn_below_threshold_noop 0 emptyStore "sushi" "Japanese"
      (mkRat 3 10) (by decide)).1
  · rw [(C5_learn_below_threshold_noop 0 emptyStore "sushi" "Japanese"
      (mkRat 3 10) (by decide)).2 "sushi"]
    decide

/-- C1 (code bug): on the very first confident observation of a name, the
code seeds the exponential moving average from the default rolling
confidence 0.0, so the created record stores `alpha * confidence` (0.24
for confidence 0.8) instead of the observed confidence the specification
(and the repository's own tests) require; the freshly learned alias is
not even retrievable, because 0.24 is below the 0.7 threshold. The
sample count is 1 as specified. -/
theorem C1_first_learn_seeds_ema_from_zero :
    dictGet "pizza"
        (learn_cuisine 0 emptyStore "pizza" "Italian" (mkRat 4 5)).learned_aliases =
      some (AliasData.mk "Italian" (mkRat 6 25) 1 (some 0)) ∧
    mkRat 6 25 ≠ mkRat 4 5 ∧
    get_learned_cuisine (learn_cuisine 0 emptyStore "pizza" "Italian" (mkRat 4 5))
      "pizza" = none := by
  refine ⟨by decide, by decide, by decide⟩

theorem hexChar_ne_pipe (n : Nat) : hexChar n ≠ '|' := by
  rw [hexChar, List.getD_eq_getElem?_getD]
  have hall : ∀ x ∈ "0123456789abcdef".data, x ≠ '|' := by decide
  rcases h : "0123456789abcdef".data[n]? with _ | c
  · rw [Option.getD_none]
    decide
  · rw [Option.getD_some]
    exact hall c (List.getElem?_mem h)

theorem mem_hexFixed {ch : Char} {w n : Nat} (h : ch ∈ hexFixed w n) :
    ∃ k, ch = hexChar k := by
  rw [hexFixed] at h
  rcases List.mem_map.mp h with ⟨i, _, hi⟩
  exact ⟨_, hi.symm⟩

theorem md5_hexdigest_no_pipe (s : String) :
    ∀ ch ∈ (md5_hexdigest s).data, ch ≠ '|' := by
  intro ch hch
  simp only [md5_hexdigest] at hch
  rcases List.mem_append.mp hch with h | h <;>
    · rcases mem_hexFixed h with ⟨k, hk⟩
      rw [hk]
      exact hexChar_ne_pipe k

theorem splitOnChar_no_sep {sep : Char} : ∀ {l : List Char},
    (∀ ch ∈ l, ch ≠ sep) → splitOnChar sep l = [l] := by
  intro l
  induction l with
  | nil => intro _; rfl
  | cons c cs ih =>
    intro h
    rw [splitOnChar]
    have hc : (c == sep) = false := by
      cases hcs : c == sep
      · rfl
      · exact absurd (eq_of_beq hcs) (h c (List.mem_cons_self _ _))
    rw [ih (fun ch hch => h ch (List.mem_cons_of_mem _ hch))]
    simp [hc]

theorem splitOnChar_dedupe_key (t d ti lo : PyObj) :
    splitOnChar '|' (event_dedupe_key t d ti lo).data =
      [(event_dedupe_key t d ti lo).data] :=
  splitOnChar_no_sep (md5_hexdigest_no_pipe _)

/-- Fuzzy similarity against any stored primary key is identically false:
the stored key is an MD5 hex digest, so splitting it on the pipe yields a
single part and `_is_similar_event` bails out at the 4-part check. -/
theorem is_similar_event_dedupe_key_false (e : EventDict) (t d ti lo : PyObj) :
    is_similar_event e (event_dedupe_key t d ti lo) = false := by
  rw [is_similar_event, splitOnChar_dedupe_key]
  rfl

/-- C4 (amended): once the per-run call counter has reached the configured
maximum, `parse_email` returns immediately: `None`, no oracle contact, the
state untouched, and only the budget warning in the log; the surrounding
batch loop stops issuing any further work. The budget-exhausted state is
distinguishable from the "no event" outcomes only through the warning log
message (and the call counters), not through the returned value, which is
the same `None`. -/
theorem C4_budget_exhausted_returns_immediately {α : Type}
    (proc : EventDict → String → String → Option α) (oracle : OracleResp)
    (now : ℚ) (st : PEState) (body mid subj : String)
    (h : st.llm_calls_made ≥ max_llm_calls_per_run) :
    parse_email proc oracle now st body mid subj =
      (PEOut.mk none false [LogEvent.maxCallsReached], st) ∧
    (∀ emails, parse_emails_batch_go proc now st emails = ([], st)) ∧
    LogEvent.maxCallsReached ≠ LogEvent.gatedOut ∧
    LogEvent.maxCallsReached ≠ LogEvent.droppedNoEvent := by
  refine ⟨?_, ?_, by decide, by decide⟩
  · rw [parse_email, if_pos h]
  · intro emails
    cases emails with
    | nil => rfl
    | cons e rest => rw [parse_emails_batch_go, if_pos h]

theorem C4_witness :
    (10 : Nat) ≥ max_llm_calls_per_run ∧
    parse_email (fun _ _ _ => (none : Option Unit)) OracleResp.odrop 0
      (PEState.mk 10 emptyStore) "free pizza tonight" "m1" "Pizza Night" =
      (PEOut.mk none false [LogEvent.maxCallsReached], PEState.mk 10 emptyStore) :=
  ⟨by decide,
    (C4_budget_exhausted_returns_immediately (fun _ _ _ => (none : Option Unit))
      OracleResp.odrop 0 (PEState.mk 10 emptyStore) "free pizza tonight" "m1"
      "Pizza Night" (by decide)).1⟩

/-- C4 (counterexample to the claim as stated): the value returned under
budget exhaustion is `None`, exactly the value returned for an email that
is not an event (here: gated out), so the result itself is not a
budget-exhausted signal distinct from the "no event" outcome; only the
log line differs. -/
theorem C4_counterexample :
    (parse_email (fun _ _ _ => (none : Option Unit)) OracleResp.odrop 0
        (PEState.mk 10 emptyStore) "free pizza tonight" "m1" "Pizza Night").1.ret =
      none ∧
    (parse_email (fun _ _ _ => (none : Option Unit)) OracleResp.odrop 0
        (PEState.mk 0 emptyStore) "" "m2" "Hello").1.ret = none ∧
    (parse_email (fun _ _ _ => (none : Option Unit)) OracleResp.odrop 0
        (PEState.mk 0 emptyStore) "" "m2" "Hello").1.logs = [LogEvent.gatedOut] ∧
    (parse_email (fun _ _ _ => (none : Option Unit)) OracleResp.odrop 0
        (PEState.mk 10 emptyStore) "free pizza tonight" "m1" "Pizza Night").1.ret =
      (parse_email (fun _ _ _ => (none : Option Unit)) OracleResp.odrop 0
        (PEState.mk 0 emptyStore) "" "m2" "Hello").1.ret := by
  refine ⟨by decide, by decide, by decide, by decide⟩

/-- C7: two events with identical normalized title, time and location and
the same as-is date value produce the same dedup primary key, and after
the first event is registered, the duplicate lookup on the second event
returns the first event's id via the exact-match branch. -/
theorem C7_exact_dedup_key_and_lookup (s : StoreData) (event_id : String)
    (e1 e2 : EventDict)
    (ht : norm_text e1.title = norm_text e2.title)
    (hd : pyStrOrEmpty e1.date_start = pyStrOrEmpty e2.date_start)
    (htime : norm_text e1.time_start = norm_text e2.time_start)
    (hl : norm_text e1.location = norm_text e2.location) :
    event_dedupe_key e1.title e1.date_start e1.time_start e1.location =
      event_dedupe_key e2.title e2.date_start e2.time_start e2.location ∧
    is_duplicate_event (register_event s event_id e1) e2 = some event_id := by
  have hkey : event_dedupe_key e1.title e1.date_start e1.time_start e1.location =
      event_dedupe_key e2.title e2.date_start e2.time_start e2.location := by
    rw [event_dedupe_key, event_dedupe_key, ht, hd, htime, hl]
  refine ⟨hkey, ?_⟩
  simp only [is_duplicate_event, register_event]
  rw [← hkey, dictGet_dictSet_self]

theorem qmul_eq (a b : ℚ) : qmul a b = a * b := by
  unfold qmul
  rw [Rat.mkRat_eq_div]
  push_cast
  conv_rhs => rw [← Rat.num_div_den a, ← Rat.num_div_den b]
  rw [div_mul_div_comm]

theorem qadd_eq (a b : ℚ) : qadd a b = a + b := by
  have h1 : (a.den : ℚ) ≠ 0 := Nat.cast_ne_zero.mpr a.den_nz
  have h2 : (b.den : ℚ) ≠ 0 := Nat.cast_ne_zero.mpr b.den_nz
  unfold qadd
  rw [Rat.mkRat_eq_div]
  push_cast
  conv_rhs => rw [← Rat.num_div_den a, ← Rat.num_div_den b]
  rw [div_add_div _ _ h1 h2]
  ring_nf

theorem qsub_eq (a b : ℚ) : qsub a b = a - b := by
  have h1 : (a.den : ℚ) ≠ 0 := Nat.cast_ne_zero.mpr a.den_nz
  have h2 : (b.den : ℚ) ≠ 0 := Nat.cast_ne_zero.mpr b.den_nz
  unfold qsub
  rw [Rat.mkRat_eq_div]
  push_cast
  conv_rhs => rw [← Rat.num_div_den a, ← Rat.num_div_den b]
  rw [div_sub_div _ _ h1 h2]
  ring_nf

theorem ema_in_unit {al c o : ℚ} (ha0 : 0 ≤ al) (ha1 : al ≤ 1)
    (hc0 : 0 ≤ c) (hc1 : c ≤ 1) (ho0 : 0 ≤ o) (ho1 : o ≤ 1) :
    0 ≤ qadd (qmul al c) (qmul (qsub 1 al) o) ∧
    qadd (qmul al c) (qmul (qsub 1 al) o) ≤ 1 := by
  rw [qadd_eq, qmul_eq, qmul_eq, qsub_eq]
  constructor <;> nlinarith

theorem alpha_nonneg : (0 : ℚ) ≤ rolling_average_alpha := by
  rw [rolling_average_alpha, Rat.mkRat_eq_div]
  norm_num

theorem alpha_le_one : rolling_average_alpha ≤ 1 := by
  rw [rolling_average_alpha, Rat.mkRat_eq_div]
  norm_num

theorem learn_cuisine_preserves_unit (now : ℚ) (s : StoreData)
    (name cuisine : String) (conf : ℚ) (hc0 : 0 ≤ conf) (hc1 : conf ≤ 1)
    (hs : ∀ p ∈ s.learned_aliases,
      0 ≤ p.2.rolling_confidence ∧ p.2.rolling_confidence ≤ 1) :
    ∀ p ∈ (learn_cuisine now s name cuisine conf).learned_aliases,
      0 ≤ p.2.rolling_confidence ∧ p.2.rolling_confidence ≤ 1 := by
  intro p hp
  simp only [learn_cuisine] at hp
  split at hp
  · exact hs p hp
  · cases hda : dictGet (normStr name) s.learned_aliases with
    | none =>
      rw [hda] at hp
      rcases mem_dictSet hp with h | h
      · subst h
        exact ema_in_unit alpha_nonneg alpha_le_one hc0 hc1 le_rfl zero_le_one
      · exact hs p h
    | some a =>
      rw [hda] at hp
      rcases mem_dictSet hp with h | h
      · subst h
        have hold := hs (normStr name, a) (mem_of_dictGet hda)
        exact ema_in_unit alpha_nonneg alpha_le_one hc0 hc1 hold.1 hold.2
      · exact hs p h

/-- C10: along any sequence of learn_cuisine calls whose observed
confidences lie in the unit interval, every stored rolling confidence
stays in the unit interval (the store argument ranges over all stores
already satisfying the invariant, so the statement covers the state after
each individual call). -/
theorem C10_rolling_confidence_stays_in_unit
    (obs : List (String × String × ℚ)) (now : ℚ) (s : StoreData)
    (hobs : ∀ o ∈ obs, 0 ≤ o.2.2 ∧ o.2.2 ≤ 1)
    (hs : ∀ p ∈ s.learned_aliases,
      0 ≤ p.2.rolling_confidence ∧ p.2.rolling_confidence ≤ 1) :
    ∀ p ∈ (obs.foldl (fun st o => learn_cuisine now st o.1 o.2.1 o.2.2) s).learned_aliases,
      0 ≤ p.2.rolling_confidence ∧ p.2.rolling_confidence ≤ 1 := by
  induction obs generalizing s with
  | nil => exact hs
  | cons o os ih =>
    rw [List.foldl_cons]
    apply ih
    · exact fun o' ho' => hobs o' (List.mem_cons_of_mem _ ho')
    · exact learn_cuisine_preserves_unit now s o.1 o.2.1 o.2.2
        (hobs o (List.mem_cons_self _ _)).1 (hobs o (List.mem_cons_self _ _)).2 hs

theorem C10_witness :
    0 ≤ (mkRat 393 1000 : ℚ) ∧ (mkRat 393 1000 : ℚ) ≤ 1 :=
  C10_rolling_confidence_stays_in_unit
    [("pizza", "Italian", mkRat 4 5), ("pizza", "Italian", mkRat 3 4)] 0 emptyStore
    (by decide) (by decide)
    ("pizza", AliasData.mk "Italian" (mkRat 393 1000) 2 (some 0)) (by decide)

/-- C8: a body whose normalized length is strictly below 100 characters is
rejected by the gating filter for every subject, regardless of any
keywords in body or subject. -/
theorem C8_short_body_always_rejected (body subject : String)
    (h : (normStr body).length < 100) : is_event_like body subject = false := by
  rw [is_event_like]
  split
  · rfl
  · rw [if_pos h]

theorem C8_witness :
    (normStr "event").length < 100 ∧
    is_event_like "event" "Workshop tonight: event meeting party" = false :=
  ⟨by decide, C8_short_body_always_rejected "event"
    "Workshop tonight: event meeting party" (by decide)⟩

/-- C6: for a draft carrying a truthy category and a category-confidence
score, the filter keeps the category when the score is at least the
threshold and nulls it when strictly below; the record itself is retained
either way (all other scalar fields are unchanged and the food list keeps
its length). -/
theorem C6_category_threshold_filter (d : EventDict) (c : String) (q : ℚ)
    (hc : d.category = some c) (hne : c ≠ "")
    (hq : d.confidence.bind (fun cf => cf.category) = some q) :
    (q ≥ min_confidence_category →
      (apply_confidence_filtering d).category = some c) ∧
    (q < min_confidence_category →
      (apply_confidence_filtering d).category = none) ∧
    (apply_confidence_filtering d).title = d.title ∧
    (apply_confidence_filtering d).date_start = d.date_start ∧
    (apply_confidence_filtering d).time_start = d.time_start ∧
    (apply_confidence_filtering d).location = d.location ∧
    (apply_confidence_filtering d).confidence = d.confidence ∧
    Option.map List.length (apply_confidence_filtering d).food =
      Option.map List.length d.food := by
  have htruthy : categoryTruthy (some c) = true := by
    rw [categoryTruthy]
    simp [hne]
  have hconf : categoryConfOf d = q := by
    rw [categoryConfOf]
    cases hcf : d.confidence with
    | none => rw [hcf] at hq; simp at hq
    | some cf =>
      rw [hcf] at hq
      simp only [Option.some_bind] at hq
      simp [hq]
  by_cases hlt : q < min_confidence_category
  · refine ⟨fun hge => absurd hlt (not_lt.mpr hge), fun _ => ?_, ?_, ?_, ?_, ?_, ?_, ?_⟩ <;>
      cases hfood : d.food <;>
      simp [apply_confidence_filtering, htruthy, hconf, hlt, hfood, hc]
  · refine ⟨fun _ => ?_, fun hlt2 => absurd hlt2 hlt, ?_, ?_, ?_, ?_, ?_, ?_⟩ <;>
      cases hfood : d.food <;>
      simp [apply_confidence_filtering, htruthy, hconf, hlt, hfood, hc]

theorem C6_witness :
    ((mkRat 3 5 ≥ min_confidence_category →
      (apply_confidence_filtering (EventDict.mk (.ostr "Pizza Night") .onone .onone
        .onone (some "workshop") (some (Confidence.mk (some (mkRat 3 5)) none))
        none)).category = some "workshop") ∧
      mkRat 3 5 ≥ min_confidence_category) ∧
    ((mkRat 59 100 < min_confidence_category →
      (apply_confidence_filtering (EventDict.mk (.ostr "Pizza Night") .onone .onone
        .onone (some "workshop") (some (Confidence.mk (some (mkRat 59 100)) none))
        none)).category = none) ∧
      mkRat 59 100 < min_confidence_category) := by
  constructor
  · constructor
    · exact (C6_category_threshold_filter _ "workshop" (mkRat 3 5) rfl
        (by decide) (by decide)).1
    · decide
  · constructor
    · exact (C6_category_threshold_filter _ "workshop" (mkRat 59 100) rfl
        (by decide) (by decide)).2.1
    · decide

set_option maxRecDepth 100000 in
/-- C2 (code bug): the fuzzy-duplicate fallback can never return a match,
because every registered key is an MD5 hex digest while the fuzzy matcher
expects a pipe-joined key (general first conjunct). Concretely, for a
registered event and a new event that satisfy every similarity condition
of the claim -- normalized-title ratio 56/57 at least 0.9, identical
(parsing) dates, identical non-empty locations with ratio 1 at least 0.8 --
the primary keys differ and the duplicate lookup returns nothing. -/
theorem C2_fuzzy_duplicate_lookup_never_matches :
    (∀ (e : EventDict) (t d ti lo : PyObj),
      is_similar_event e (event_dedupe_key t d ti lo) = false) ∧
    seqMatcherRatio (norm_text (PyObj.ostr "Workshop on Machine Learning!"))
        (norm_text (PyObj.ostr "Workshop on Machine Learning")) ≥ mkRat 9 10 ∧
    strptimeYmd "2025-09-20" = some (dateOrdinal 2025 9 20) ∧
    seqMatcherRatio (norm_text (PyObj.ostr "Room 101"))
        (norm_text (PyObj.ostr "Room 101")) ≥ mkRat 4 5 ∧
    event_dedupe_key (.ostr "Workshop on Machine Learning!") (.ostr "2025-09-20")
        (.ostr "14:00") (.ostr "Room 101") ≠
      event_dedupe_key (.ostr "Workshop on Machine Learning") (.ostr "2025-09-20")
        (.ostr "14:00") (.ostr "Room 101") ∧
    is_duplicate_event
      (register_event emptyStore "event1"
        (EventDict.mk (.ostr "Workshop on Machine Learning") (.ostr "2025-09-20")
          (.ostr "14:00") (.ostr "Room 101") none none none))
      (EventDict.mk (.ostr "Workshop on Machine Learning!") (.ostr "2025-09-20")
        (.ostr "14:00") (.ostr "Room 101") none none none) = none := by
  refine ⟨is_similar_event_dedupe_key_false, by decide, by decide, by decide,
    by decide, by decide⟩

set_option maxRecDepth 100000 in
/-- C3 (code bug): the time-windowed cleanup never touches learned aliases
(first conjunct, for every store and age), but it removes every dedup
entry regardless of age: the registered keys are MD5 digests, so
`key.split("|")[1]` raises and the except-branch marks the entry old.
Concretely, a 30-day cleanup run on the very day of the registered
event's date deletes its dedup entry even though the entry is not older
than the cutoff. -/
theorem C3_cleanup_deletes_fresh_dedup_entries :
    (∀ (now : ℚ) (days : Nat) (s : StoreData),
      (cleanup_old_data now days s).learned_aliases = s.learned_aliases) ∧
    (cleanup_old_data ((dateOrdinal 2025 10 12 : Nat) : ℚ) 30
        (register_event emptyStore "event1"
          (EventDict.mk (.ostr "Pizza Night") (.ostr "2025-10-12") (.ostr "18:00")
            (.ostr "Annenberg") none none none))).event_dedup = [] ∧
    (register_event emptyStore "event1"
        (EventDict.mk (.ostr "Pizza Night") (.ostr "2025-10-12") (.ostr "18:00")
          (.ostr "Annenberg") none none none)).event_dedup ≠ [] ∧
    ¬ (((dateOrdinal 2025 10 12 : Nat) : ℚ) <
        qsub ((dateOrdinal 2025 10 12 : Nat) : ℚ) ((30 : Nat) : ℚ)) := by
  refine ⟨fun _ _ _ => rfl, by decide, by decide, by decide⟩

/-- Cleanup removes every dedup entry of any store whose keys all come
from `event_dedupe_key`, i.e. of every store the code itself can build. -/
theorem cleanup_empties_dedup_general (now : ℚ) (days : Nat) (s : StoreData)
    (hkeys : ∀ p ∈ s.event_dedup,
      ∃ t d ti lo, p.1 = event_dedupe_key t d ti lo) :
    (cleanup_old_data now days s).event_dedup = [] := by
  simp only [cleanup_old_data]
  rw [List.filter_eq_nil_iff]
  intro p hp
  rcases hkeys p hp with ⟨t, d, ti, lo, hkey⟩
  rw [hkey, splitOnChar_dedupe_key]
  simp

theorem C7_witness :
    norm_text (PyObj.ostr "Test  EVENT ") = norm_text (PyObj.ostr "Test Event") ∧
    is_duplicate_event
      (register_event emptyStore "event1"
        (EventDict.mk (.ostr "Test Event") (.ostr "2025-09-20") (.ostr "14:00")
          (.ostr "Room 101") none none none))
      (EventDict.mk (.ostr "Test  EVENT ") (.ostr "2025-09-20") (.ostr "14:00")
        (.ostr "Room 101") none none none) = some "event1" := by
  refine ⟨by decide, ?_⟩
  exact (C7_exact_dedup_key_and_lookup emptyStore "event1"
    (EventDict.mk (.ostr "Test Event") (.ostr "2025-09-20") (.ostr "14:00")
      (.ostr "Room 101") none none none)
    (EventDict.mk (.ostr "Test  EVENT ") (.ostr "2025-09-20") (.ostr "14:00")
      (.ostr "Room 101") none none none)
    (by decide) (by decide) (by decide) (by decide)).2

